import Mathlib

/-!
Verification development for the layered relay-cell cryptography core of the
arti Tor implementation (`tor-proto`), as exercised by the benchmarks
`client_decrypt.rs`, `relay_decrypt.rs`, and `exit_encrypt.rs`.

The per-hop crypt engines (`tor1`, `cgo`), the client-side stack wrappers
(`InboundClientCryptWrapper`, `OutboundClientCryptWrapper`), the relay-side
trait (`RelayCryptState`) and the helper `circuit_encrypt_inbound` live in
`tor_proto::bench_utils`, outside the available source tree; only their
callers (the benchmarks) are available.  Those parts are therefore modelled
from the specification, with a shallow embedding that keeps the source
names, shapes and call protocols of the benchmark callers:

* `RelayBody` is a byte list (the benchmarks use 509-byte buffers);
  cells are mutated in place in Rust, modelled here by returning the new
  buffer alongside the new state.
* The Tor1 construction is a counter-mode keystream XOR plus a running
  digest whose 4-byte truncation fills a reserved recognition slot of the
  cell; recognition means the slot matches the running digest.
* The CGO construction is a whole-cell tweakable cipher plus a 16-byte
  universal-hash tag; recognition means the tag verifies.
* The concrete stream cipher / digest / universal hash primitives are
  abstracted by fixed executable mixing functions (the spec treats the
  primitives as opaque; only their structural role matters here).
-/

/-- Modelled from the spec: `KeySeed` is an opaque per-hop secret byte
buffer delivered by the handshake layer. -/
abbrev KeySeed := List Nat

/-- Length of a `RelayBody` cell buffer used by the benchmarks (509 bytes). -/
def CELL_LEN : Nat := 509

/-- Width in bytes of the Tor1 truncated-digest recognition slot. -/
def DIGEST_LEN : Nat := 4

/-- Width in bytes of the CGO authentication tag. -/
def TAG_LEN : Nat := 16

/-- Modelled from the spec: the fixed key-derivation schedule; derives one
sub-key (a 32-bit word) from the seed, separated by a domain tag. -/
def foldKey (tag : Nat) (seed : List Nat) : Nat :=
  seed.foldl (fun a b => (a * 293 + b + 1) % 4294967296) (tag + 1)

/-- Modelled from the spec: one byte of the counter-mode keystream at a
given absolute position. -/
def ksByte (key pos : Nat) : Nat :=
  (key + 1) * (2 * pos + 1) * 2654435761 % 4294967296 / 65536 % 256

/-- XOR a byte list against the keystream starting at position `pos`. -/
def xorStream (key : Nat) : Nat → List Nat → List Nat
  | _, [] => []
  | pos, b :: rest => (b ^^^ ksByte key pos) :: xorStream key (pos + 1) rest

/-- Modelled from the spec: the incremental digest accumulator, updated
with every byte of a cell. -/
def digestUpdate (d : Nat) (c : List Nat) : Nat :=
  c.foldl (fun a b => (a * 131 + b + 17) % 4294967296) d

/-- Truncate a digest state to the `DIGEST_LEN` recognition-slot bytes. -/
def truncBytes (d : Nat) : List Nat :=
  [d / 16777216 % 256, d / 65536 % 256, d / 256 % 256, d % 256]

/-- Read the recognition slot of a cell. -/
def getSlot (c : List Nat) : List Nat := c.take DIGEST_LEN

/-- Zero the recognition slot of a cell (the sender-side convention for the
plaintext of the reserved header slot). -/
def zeroSlot (c : List Nat) : List Nat :=
  List.replicate DIGEST_LEN 0 ++ c.drop DIGEST_LEN

/-- Overwrite the recognition slot of a cell with `t`. -/
def setSlot (t c : List Nat) : List Nat := t ++ c.drop DIGEST_LEN

/-- Modelled from the spec: `KeyError` - malformed or too-short seed at
construction time. -/
inductive KeyError where
  | tooShort
deriving DecidableEq

/-- Modelled from the spec: circuit-level errors surfaced by the client
crypt wrappers: `RecognitionFailure` when no layer recognized an inbound
cell, `NoSuchHop` when an outbound hop number is out of range. -/
inductive CryptError where
  | RecognitionFailure
  | NoSuchHop
deriving DecidableEq

/-- Modelled from the spec: the client-side per-hop Tor1 state: forward and
back stream keys, forward and back running digests, and the per-direction
cell counters. -/
structure Tor1ClientCryptState where
  kf : Nat
  kb : Nat
  df : Nat
  db : Nat
  nf : Nat
  nb : Nat
deriving DecidableEq

/-- The Tor1 client state derived from a seed by the fixed schedule. -/
def tor1ClientOf (seed : KeySeed) : Tor1ClientCryptState :=
  { kf := foldKey 0 seed, kb := foldKey 1 seed
    df := foldKey 2 seed, db := foldKey 3 seed, nf := 0, nb := 0 }

/-- Modelled from the spec: `Tor1ClientCryptState::construct` derives all
sub-keys from the seed via the fixed schedule; fails only when the seed is
too short (empty) for the algorithm. -/
def Tor1ClientCryptState.construct (seed : KeySeed) :
    Except KeyError Tor1ClientCryptState :=
  if seed = [] then .error .tooShort else .ok (tor1ClientOf seed)

/-- Modelled from the spec: the relay-side per-hop Tor1 state, derived from
the same seed as the client state (reciprocal key material). -/
structure Tor1RelayCryptState where
  kf : Nat
  kb : Nat
  df : Nat
  db : Nat
  nf : Nat
  nb : Nat
deriving DecidableEq

/-- The Tor1 relay state derived from a seed by the fixed schedule. -/
def tor1RelayOf (seed : KeySeed) : Tor1RelayCryptState :=
  { kf := foldKey 0 seed, kb := foldKey 1 seed
    df := foldKey 2 seed, db := foldKey 3 seed, nf := 0, nb := 0 }

/-- Modelled from the spec: `Tor1RelayCryptState::construct`. -/
def Tor1RelayCryptState.construct (seed : KeySeed) :
    Except KeyError Tor1RelayCryptState :=
  if seed = [] then .error .tooShort else .ok (tor1RelayOf seed)

/-- Modelled from the spec: client `encrypt_layer` - apply this hop's
forward stream transformation (used for hops closer than the target). -/
def Tor1ClientCryptState.encrypt_layer (s : Tor1ClientCryptState)
    (c : List Nat) : Tor1ClientCryptState × List Nat :=
  ({ s with nf := s.nf + 1 }, xorStream s.kf (s.nf * CELL_LEN) c)

/-- Modelled from the spec: the target-hop half of outbound encryption -
zero the recognition slot, fold the cell into the forward digest, write the
truncated digest into the slot, then apply the forward stream. -/
def Tor1ClientCryptState.originate_layer (s : Tor1ClientCryptState)
    (c : List Nat) : Tor1ClientCryptState × List Nat :=
  let p0 := zeroSlot c
  let d := digestUpdate s.df p0
  ({ s with df := d, nf := s.nf + 1 },
   xorStream s.kf (s.nf * CELL_LEN) (setSlot (truncBytes d) p0))

/-- Modelled from the spec: client `decrypt_layer` - peel this hop's back
stream transformation off an inbound cell, update the back digest, and
report whether the recognition slot matches the truncated digest. -/
def Tor1ClientCryptState.decrypt_layer (s : Tor1ClientCryptState)
    (c : List Nat) : Tor1ClientCryptState × List Nat × Bool :=
  let q := xorStream s.kb (s.nb * CELL_LEN) c
  let d := digestUpdate s.db (zeroSlot q)
  ({ s with db := d, nb := s.nb + 1 }, q, decide (getSlot q = truncBytes d))

/-- Modelled from the spec: relay `decrypt` - peel this hop's forward
transformation off a cell moving away from the originator and report the
recognition signal. -/
def Tor1RelayCryptState.decrypt (s : Tor1RelayCryptState)
    (c : List Nat) : Tor1RelayCryptState × List Nat × Bool :=
  let q := xorStream s.kf (s.nf * CELL_LEN) c
  let d := digestUpdate s.df (zeroSlot q)
  ({ s with df := d, nf := s.nf + 1 }, q, decide (getSlot q = truncBytes d))

/-- Modelled from the spec: relay `originate` - write the recognition data
for a cell this relay itself produces and apply the back stream. -/
def Tor1RelayCryptState.originate (s : Tor1RelayCryptState)
    (c : List Nat) : Tor1RelayCryptState × List Nat :=
  let p0 := zeroSlot c
  let d := digestUpdate s.db p0
  ({ s with db := d, nb := s.nb + 1 },
   xorStream s.kb (s.nb * CELL_LEN) (setSlot (truncBytes d) p0))

/-- Modelled from the spec: relay `encrypt` - apply this hop's back stream
transformation to a cell being forwarded toward the client. -/
def Tor1RelayCryptState.encrypt (s : Tor1RelayCryptState)
    (c : List Nat) : Tor1RelayCryptState × List Nat :=
  ({ s with nb := s.nb + 1 }, xorStream s.kb (s.nb * CELL_LEN) c)

/-! Basic facts about the stream and the recognition slot. -/

theorem xorStream_nil (key pos : Nat) : xorStream key pos [] = [] := rfl

theorem xorStream_cons (key pos b : Nat) (rest : List Nat) :
    xorStream key pos (b :: rest) =
      (b ^^^ ksByte key pos) :: xorStream key (pos + 1) rest := rfl

theorem xorStream_length (key : Nat) :
    ∀ (pos : Nat) (c : List Nat), (xorStream key pos c).length = c.length := by
  intro pos c
  induction c generalizing pos with
  | nil => rfl
  | cons b rest ih => simp [xorStream, ih]

theorem xorStream_xorStream (key : Nat) :
    ∀ (pos : Nat) (c : List Nat), xorStream key pos (xorStream key pos c) = c := by
  intro pos c
  induction c generalizing pos with
  | nil => rfl
  | cons b rest ih =>
      simp [xorStream, ih, Nat.xor_cancel_right]

theorem truncBytes_length (d : Nat) : (truncBytes d).length = DIGEST_LEN := rfl

theorem getSlot_setSlot (t c : List Nat) (h : t.length = DIGEST_LEN) :
    getSlot (setSlot t c) = t :=
  List.take_left' h

theorem drop_setSlot (t c : List Nat) (h : t.length = DIGEST_LEN) :
    (setSlot t c).drop DIGEST_LEN = c.drop DIGEST_LEN :=
  List.drop_left' h

theorem drop_zeroSlot (c : List Nat) :
    (zeroSlot c).drop DIGEST_LEN = c.drop DIGEST_LEN :=
  List.drop_left' (List.length_replicate _ _)

theorem zeroSlot_setSlot (t c : List Nat) (h : t.length = DIGEST_LEN) :
    zeroSlot (setSlot t c) = zeroSlot c := by
  unfold zeroSlot
  rw [drop_setSlot t c h]

theorem zeroSlot_zeroSlot (c : List Nat) :
    zeroSlot (zeroSlot c) = zeroSlot c := by
  conv_lhs => rw [zeroSlot]
  rw [drop_zeroSlot]
  rfl

/-! The algorithm-agnostic contracts and the client-side stack wrappers. -/

/-- Modelled from the spec: the abstract Client-variant per-hop contract
(`encrypt_layer`, the target-hop origination step, and `decrypt_layer`). -/
class ClientLayer (σ : Type) where
  encrypt_layer : σ → List Nat → σ × List Nat
  originate_layer : σ → List Nat → σ × List Nat
  decrypt_layer : σ → List Nat → σ × List Nat × Bool

/-- Modelled from the spec: the abstract Relay-variant per-hop contract
(the `RelayCryptState` trait of `bench_utils`). -/
class RelayCryptState (ρ : Type) where
  decrypt : ρ → List Nat → ρ × List Nat × Bool
  encrypt : ρ → List Nat → ρ × List Nat
  originate : ρ → List Nat → ρ × List Nat

instance : ClientLayer Tor1ClientCryptState where
  encrypt_layer := Tor1ClientCryptState.encrypt_layer
  originate_layer := Tor1ClientCryptState.originate_layer
  decrypt_layer := Tor1ClientCryptState.decrypt_layer

instance : RelayCryptState Tor1RelayCryptState where
  decrypt := Tor1RelayCryptState.decrypt
  encrypt := Tor1RelayCryptState.encrypt
  originate := Tor1RelayCryptState.originate

/-- Modelled from the spec: the inbound client stack - the ordered sequence
of Client hop states, index 0 nearest the originator. -/
structure InboundClientCryptWrapper (σ : Type) where
  layers : List σ
deriving DecidableEq

/-- An empty inbound stack (`InboundClientCryptWrapper::new`). -/
def InboundClientCryptWrapper.new {σ : Type} : InboundClientCryptWrapper σ :=
  ⟨[]⟩

/-- Modelled from the spec: `add_layer` appends the new hop state at the
far end of the stack. -/
def InboundClientCryptWrapper.add_layer {σ : Type}
    (w : InboundClientCryptWrapper σ) (s : σ) : InboundClientCryptWrapper σ :=
  ⟨w.layers ++ [s]⟩

/-- Modelled from the spec: the inbound pass - apply `decrypt_layer` for
hops 0, 1, ... in order, stopping at the first layer that reports
`Recognized`; yields the updated layer states and the accepted cell (or
`none` when no layer recognized). -/
def inboundGo {σ : Type} [ClientLayer σ] :
    List σ → List Nat → List σ × Option (List Nat)
  | [], _ => ([], none)
  | s :: rest, c =>
    let r := ClientLayer.decrypt_layer s c
    if r.2.2 then (r.1 :: rest, some r.2.1)
    else
      let q := inboundGo rest r.2.1
      (r.1 :: q.1, q.2)

/-- Modelled from the spec: `InboundClientCryptWrapper::decrypt` - the full
inbound pass; a pass in which no layer recognizes the cell surfaces
`RecognitionFailure` rather than silently dropping the cell. -/
def InboundClientCryptWrapper.decrypt {σ : Type} [ClientLayer σ]
    (w : InboundClientCryptWrapper σ) (c : List Nat) :
    InboundClientCryptWrapper σ × Except CryptError (List Nat) :=
  let r := inboundGo w.layers c
  (⟨r.1⟩,
   match r.2 with
   | some out => .ok out
   | none => .error .RecognitionFailure)

/-- Modelled from the spec: the outbound client stack. -/
structure OutboundClientCryptWrapper (σ : Type) where
  layers : List σ
deriving DecidableEq

/-- An empty outbound stack (`OutboundClientCryptWrapper::new`). -/
def OutboundClientCryptWrapper.new {σ : Type} : OutboundClientCryptWrapper σ :=
  ⟨[]⟩

/-- Modelled from the spec: `add_layer` appends the new hop state at the
far end of the stack. -/
def OutboundClientCryptWrapper.add_layer {σ : Type}
    (w : OutboundClientCryptWrapper σ) (s : σ) : OutboundClientCryptWrapper σ :=
  ⟨w.layers ++ [s]⟩

/-- Modelled from the spec: outbound encryption for target hop `hop` -
apply the origination step at layer `hop`, then `encrypt_layer` for hops
hop-1, ..., 0 in that order; `none` when `hop` is out of range. -/
def outboundGo {σ : Type} [ClientLayer σ] :
    List σ → Nat → List Nat → Option (List σ × List Nat)
  | [], _, _ => none
  | s :: rest, 0, c =>
    let r := ClientLayer.originate_layer s c
    some (r.1 :: rest, r.2)
  | s :: rest, h + 1, c =>
    match outboundGo rest h c with
    | none => none
    | some q =>
      let r := ClientLayer.encrypt_layer s q.2
      some (r.1 :: q.1, r.2)

/-- Modelled from the spec: `OutboundClientCryptWrapper::encrypt(cell,
hop_num)` - fallible at the interface; fails exactly when `hop_num` names
no layer of the stack. -/
def OutboundClientCryptWrapper.encrypt {σ : Type} [ClientLayer σ]
    (w : OutboundClientCryptWrapper σ) (c : List Nat) (hop : Nat) :
    OutboundClientCryptWrapper σ × Except CryptError (List Nat) :=
  match outboundGo w.layers hop c with
  | none => (w, .error .NoSuchHop)
  | some r => (⟨r.1⟩, .ok r.2)

/-- Modelled from the spec: `circuit_encrypt_inbound` - the benchmark
helper that drives a whole circuit's relay states exit-to-client: the last
state originates the cell, every earlier state applies its inbound
`encrypt`. -/
def circuit_encrypt_inbound {ρ : Type} [RelayCryptState ρ] :
    List ρ → List Nat → List ρ × List Nat
  | [], c => ([], c)
  | [s], c =>
    let r := RelayCryptState.originate s c
    ([r.1], r.2)
  | s :: s2 :: rest, c =>
    let q := circuit_encrypt_inbound (s2 :: rest) c
    let r := RelayCryptState.encrypt s q.2
    (r.1 :: q.1, r.2)

/-! The CGO construction. -/

/-- The modulus bounding the universal-hash state (a 128-bit tag). -/
def UH_MOD : Nat := 340282366920938463463374607431768211456

/-- Modelled from the spec: the CGO universal hash over a cell body, keyed
by the hop key and the running tweak, producing the authentication tag. -/
def uh (k t : Nat) (body : List Nat) : Nat :=
  body.foldl (fun a b => (a * 257 + b + 1) % UH_MOD) ((k * 131 + t * 31 + 5) % UH_MOD)

/-- Big-endian byte expansion of a number to a fixed width. -/
def natToBytes : Nat → Nat → List Nat
  | 0, _ => []
  | n + 1, d => natToBytes n (d / 256) ++ [d % 256]

/-- Big-endian byte-list reading of a number. -/
def bytesToNat (l : List Nat) : Nat := l.foldl (fun a b => a * 256 + b) 0

/-- Modelled from the spec: the per-cell key of the wide-block tweakable
cipher, mixing the hop key with the running tweak. -/
def mixK (k t : Nat) : Nat := (k * 65599 + t + 1) % 4294967296

/-- Modelled from the spec: the AEAD-style chaining update of the running
tweak after a cell crosses a hop. -/
def chainTweak (t x : Nat) : Nat := (t * 131 + x + 9) % UH_MOD

/-- Modelled from the spec: the client-side per-hop CGO state: per-direction
wide-block cipher keys and running tweaks. -/
structure CgoClientCryptState where
  kf : Nat
  kb : Nat
  tf : Nat
  tb : Nat
deriving DecidableEq

/-- The CGO client state derived from a seed by the fixed schedule. -/
def cgoClientOf (seed : KeySeed) : CgoClientCryptState :=
  { kf := foldKey 4 seed, kb := foldKey 5 seed
    tf := foldKey 6 seed, tb := foldKey 7 seed }

/-- Modelled from the spec: `CgoClientCryptState::construct`. -/
def CgoClientCryptState.construct (seed : KeySeed) :
    Except KeyError CgoClientCryptState :=
  if seed = [] then .error .tooShort else .ok (cgoClientOf seed)

/-- Modelled from the spec: the relay-side per-hop CGO state, derived from
the same seed as the client state. -/
structure CgoRelayCryptState where
  kf : Nat
  kb : Nat
  tf : Nat
  tb : Nat
deriving DecidableEq

/-- The CGO relay state derived from a seed by the fixed schedule. -/
def cgoRelayOf (seed : KeySeed) : CgoRelayCryptState :=
  { kf := foldKey 4 seed, kb := foldKey 5 seed
    tf := foldKey 6 seed, tb := foldKey 7 seed }

/-- Modelled from the spec: `CgoRelayCryptState::construct`. -/
def CgoRelayCryptState.construct (seed : KeySeed) :
    Except KeyError CgoRelayCryptState :=
  if seed = [] then .error .tooShort else .ok (cgoRelayOf seed)

/-- Modelled from the spec: CGO client `encrypt_layer` - whole-cell
tweakable encryption, chaining the tweak with the emitted tag bytes. -/
def CgoClientCryptState.encrypt_layer (s : CgoClientCryptState)
    (c : List Nat) : CgoClientCryptState × List Nat :=
  let ct := xorStream (mixK s.kf s.tf) 0 c
  ({ s with tf := chainTweak s.tf (bytesToNat (ct.take TAG_LEN)) }, ct)

/-- Modelled from the spec: the target-hop half of CGO outbound encryption -
compute the authentication tag of the body under the universal hash, place
it in the tag slot, encrypt, and chain the tweak. -/
def CgoClientCryptState.originate_layer (s : CgoClientCryptState)
    (c : List Nat) : CgoClientCryptState × List Nat :=
  let b0 := c.drop TAG_LEN
  let t := uh s.kf s.tf b0
  let ct := xorStream (mixK s.kf s.tf) 0 (natToBytes TAG_LEN t ++ b0)
  ({ s with tf := chainTweak s.tf (bytesToNat (ct.take TAG_LEN)) }, ct)

/-- Modelled from the spec: CGO client `decrypt_layer` - peel the
whole-cell encryption, verify the tag against the universal hash of the
body ("recognized" means the tag verifies), and chain the tweak with the
incoming tag bytes. -/
def CgoClientCryptState.decrypt_layer (s : CgoClientCryptState)
    (c : List Nat) : CgoClientCryptState × List Nat × Bool :=
  let q := xorStream (mixK s.kb s.tb) 0 c
  let ok := decide (q.take TAG_LEN = natToBytes TAG_LEN (uh s.kb s.tb (q.drop TAG_LEN)))
  ({ s with tb := chainTweak s.tb (bytesToNat (c.take TAG_LEN)) }, q, ok)

/-- Modelled from the spec: CGO relay `decrypt` - peel this hop's forward
transformation and verify the tag. -/
def CgoRelayCryptState.decrypt (s : CgoRelayCryptState)
    (c : List Nat) : CgoRelayCryptState × List Nat × Bool :=
  let q := xorStream (mixK s.kf s.tf) 0 c
  let ok := decide (q.take TAG_LEN = natToBytes TAG_LEN (uh s.kf s.tf (q.drop TAG_LEN)))
  ({ s with tf := chainTweak s.tf (bytesToNat (c.take TAG_LEN)) }, q, ok)

/-- Modelled from the spec: CGO relay `originate`. -/
def CgoRelayCryptState.originate (s : CgoRelayCryptState)
    (c : List Nat) : CgoRelayCryptState × List Nat :=
  let b0 := c.drop TAG_LEN
  let t := uh s.kb s.tb b0
  let ct := xorStream (mixK s.kb s.tb) 0 (natToBytes TAG_LEN t ++ b0)
  ({ s with tb := chainTweak s.tb (bytesToNat (ct.take TAG_LEN)) }, ct)

/-- Modelled from the spec: CGO relay `encrypt` for forwarded inbound
cells. -/
def CgoRelayCryptState.encrypt (s : CgoRelayCryptState)
    (c : List Nat) : CgoRelayCryptState × List Nat :=
  let ct := xorStream (mixK s.kb s.tb) 0 c
  ({ s with tb := chainTweak s.tb (bytesToNat (ct.take TAG_LEN)) }, ct)

instance : ClientLayer CgoClientCryptState where
  encrypt_layer := CgoClientCryptState.encrypt_layer
  originate_layer := CgoClientCryptState.originate_layer
  decrypt_layer := CgoClientCryptState.decrypt_layer

instance : RelayCryptState CgoRelayCryptState where
  decrypt := CgoRelayCryptState.decrypt
  encrypt := CgoRelayCryptState.encrypt
  originate := CgoRelayCryptState.originate

theorem natToBytes_length (n d : Nat) : (natToBytes n d).length = n := by
  induction n generalizing d with
  | zero => rfl
  | succ m ih => simp [natToBytes, ih]

/-! Characterization of the inbound multi-layer pass. -/

/-- The per-layer recognition flags of a full (non-stopping) inbound pass:
flag `i` is what layer `i` would report when the pass reaches it. -/
def recognizedFlags {σ : Type} [ClientLayer σ] : List σ → List Nat → List Bool
  | [], _ => []
  | s :: rest, c =>
    let r := ClientLayer.decrypt_layer s c
    r.2.2 :: recognizedFlags rest r.2.1

/-- The index of the first layer that reports `Recognized` during the
sequential inbound pass, if any. -/
def firstRecognizedIndex {σ : Type} [ClientLayer σ] :
    List σ → List Nat → Option Nat
  | [], _ => none
  | s :: rest, c =>
    let r := ClientLayer.decrypt_layer s c
    if r.2.2 then some 0
    else (firstRecognizedIndex rest r.2.1).map (· + 1)

/-- How many layers the inbound pass processes: up to and including the
first recognizing layer, or all of them when none recognizes. -/
def processedCount {σ : Type} [ClientLayer σ]
    (layers : List σ) (c : List Nat) : Nat :=
  match firstRecognizedIndex layers c with
  | some k => k + 1
  | none => layers.length

/-- The cell after being peeled by a prefix of layers in order. -/
def peeledThrough {σ : Type} [ClientLayer σ] : List σ → List Nat → List Nat
  | [], c => c
  | s :: rest, c => peeledThrough rest (ClientLayer.decrypt_layer s c).2.1

theorem peeledThrough_cons {σ : Type} [ClientLayer σ] (s : σ) (rest : List σ)
    (c : List Nat) :
    peeledThrough (s :: rest) c =
      peeledThrough rest (ClientLayer.decrypt_layer s c).2.1 := rfl

theorem processedCount_cons_true {σ : Type} [ClientLayer σ] (s : σ)
    (rest : List σ) (c : List Nat)
    (h : (ClientLayer.decrypt_layer s c).2.2 = true) :
    processedCount (s :: rest) c = 1 := by
  simp [processedCount, firstRecognizedIndex, h]

theorem firstRecognizedIndex_cons {σ : Type} [ClientLayer σ] (s : σ)
    (rest : List σ) (c : List Nat) :
    firstRecognizedIndex (s :: rest) c =
      if (ClientLayer.decrypt_layer s c).2.2 then some 0
      else (firstRecognizedIndex rest
        (ClientLayer.decrypt_layer s c).2.1).map (· + 1) := rfl

theorem processedCount_cons_false {σ : Type} [ClientLayer σ] (s : σ)
    (rest : List σ) (c : List Nat)
    (h : (ClientLayer.decrypt_layer s c).2.2 = false) :
    processedCount (s :: rest) c =
      processedCount rest (ClientLayer.decrypt_layer s c).2.1 + 1 := by
  unfold processedCount
  rw [firstRecognizedIndex_cons]
  cases hf : firstRecognizedIndex rest (ClientLayer.decrypt_layer s c).2.1 <;>
    simp [h, hf]

theorem inboundGo_fst_length {σ : Type} [ClientLayer σ] :
    ∀ (layers : List σ) (c : List Nat),
      (inboundGo layers c).1.length = layers.length := by
  intro layers
  induction layers with
  | nil => intro c; rfl
  | cons s rest ih =>
      intro c
      by_cases h : (ClientLayer.decrypt_layer s c).2.2 <;>
        simp [inboundGo, h, ih]

theorem inboundGo_snd_eq {σ : Type} [ClientLayer σ] :
    ∀ (layers : List σ) (c : List Nat),
      (inboundGo layers c).2 =
        (firstRecognizedIndex layers c).map
          (fun k => peeledThrough (layers.take (k + 1)) c) := by
  intro layers
  induction layers with
  | nil => intro c; rfl
  | cons s rest ih =>
      intro c
      by_cases h : (ClientLayer.decrypt_layer s c).2.2
      · simp [inboundGo, firstRecognizedIndex, h, peeledThrough]
      · simp only [inboundGo, firstRecognizedIndex, h, if_false,
          Bool.false_eq_true]
        rw [ih]
        cases hf :
            firstRecognizedIndex rest (ClientLayer.decrypt_layer s c).2.1 <;>
          simp [hf, List.take_succ_cons, peeledThrough_cons]

theorem inboundGo_fst_get {σ : Type} [ClientLayer σ] :
    ∀ (layers : List σ) (c : List Nat) (i : Nat),
      (inboundGo layers c).1[i]? =
        if i < processedCount layers c then
          (layers[i]?).map
            (fun s =>
              (ClientLayer.decrypt_layer s (peeledThrough (layers.take i) c)).1)
        else layers[i]? := by
  intro layers
  induction layers with
  | nil => intro c i; simp [inboundGo, processedCount, firstRecognizedIndex]
  | cons s rest ih =>
      intro c i
      rcases h : (ClientLayer.decrypt_layer s c).2.2 with _ | _
      case true =>
        rw [processedCount_cons_true s rest c h]
        match i with
        | 0 => simp [inboundGo, h, peeledThrough]
        | j + 1 => simp [inboundGo, h]
      case false =>
        rw [processedCount_cons_false s rest c h]
        match i with
        | 0 =>
          simp [inboundGo, h, peeledThrough]
        | j + 1 =>
          simp only [inboundGo, h, if_false, Bool.false_eq_true,
            List.getElem?_cons_succ, List.take_succ_cons, peeledThrough_cons]
          rw [ih]
          simp [Nat.succ_lt_succ_iff]

theorem recognizedFlags_length {σ : Type} [ClientLayer σ] :
    ∀ (layers : List σ) (c : List Nat),
      (recognizedFlags layers c).length = layers.length := by
  intro layers
  induction layers with
  | nil => intro c; rfl
  | cons s rest ih => intro c; simp [recognizedFlags, ih]

theorem firstRecognizedIndex_none_iff {σ : Type} [ClientLayer σ] :
    ∀ (layers : List σ) (c : List Nat),
      firstRecognizedIndex layers c = none ↔
        ∀ b ∈ recognizedFlags layers c, b = false := by
  intro layers
  induction layers with
  | nil => intro c; simp [firstRecognizedIndex, recognizedFlags]
  | cons s rest ih =>
      intro c
      by_cases h : (ClientLayer.decrypt_layer s c).2.2 <;>
        simp [firstRecognizedIndex, recognizedFlags, h, ih]

theorem firstRecognizedIndex_some {σ : Type} [ClientLayer σ] :
    ∀ (layers : List σ) (c : List Nat) (k : Nat),
      firstRecognizedIndex layers c = some k →
        (recognizedFlags layers c)[k]? = some true
        ∧ ∀ j, j < k → (recognizedFlags layers c)[j]? = some false := by
  intro layers
  induction layers with
  | nil => intro c k h; simp [firstRecognizedIndex] at h
  | cons s rest ih =>
      intro c k h
      by_cases hr : (ClientLayer.decrypt_layer s c).2.2
      · simp [firstRecognizedIndex, hr] at h
        subst h
        simp [recognizedFlags, hr]
      · simp only [firstRecognizedIndex, hr, if_false, Bool.false_eq_true,
          Option.map_eq_some'] at h
        obtain ⟨k0, hk0, hk⟩ := h
        subst hk
        have hrec := ih (ClientLayer.decrypt_layer s c).2.1 k0 hk0
        constructor
        · simpa [recognizedFlags] using hrec.1
        · intro j hj
          match j with
          | 0 =>
            simp [recognizedFlags, hr]
          | j' + 1 =>
            have : j' < k0 := by omega
            simpa [recognizedFlags] using hrec.2 j' this

/-- C3: `InboundClientCryptWrapper::decrypt` applies `decrypt_layer` for
hops 0, 1, ..., N-1 in exactly that order, stops accepting the cell at the
first layer k that reports `Recognized`, processes every layer 0..k (all N
layers when none recognizes), updates each crossed layer's state exactly
once (layer i is fed the cell peeled by layers 0..i-1), and leaves every
later layer untouched. -/
theorem claim_inbound_order_exhaustive {σ : Type} [ClientLayer σ]
    (w : InboundClientCryptWrapper σ) (c : List Nat) :
    ((w.decrypt c).1.layers.length = w.layers.length)
    ∧ (∀ i, i < processedCount w.layers c →
        (w.decrypt c).1.layers[i]? =
          (w.layers[i]?).map
            (fun s =>
              (ClientLayer.decrypt_layer s
                (peeledThrough (w.layers.take i) c)).1))
    ∧ (∀ i, processedCount w.layers c ≤ i →
        (w.decrypt c).1.layers[i]? = w.layers[i]?)
    ∧ (∀ k, firstRecognizedIndex w.layers c = some k →
        processedCount w.layers c = k + 1
        ∧ (recognizedFlags w.layers c)[k]? = some true
        ∧ ∀ j, j < k → (recognizedFlags w.layers c)[j]? = some false)
    ∧ (firstRecognizedIndex w.layers c = none →
        processedCount w.layers c = w.layers.length) := by
  have hl : (w.decrypt c).1.layers = (inboundGo w.layers c).1 := rfl
  refine ⟨?_, ?_, ?_, ?_, ?_⟩
  · rw [hl, inboundGo_fst_length]
  · intro i hi
    rw [hl, inboundGo_fst_get]
    simp [hi]
  · intro i hi
    rw [hl, inboundGo_fst_get]
    simp [Nat.not_lt.mpr hi]
  · intro k hk
    exact ⟨by simp [processedCount, hk],
      (firstRecognizedIndex_some _ _ _ hk).1,
      (firstRecognizedIndex_some _ _ _ hk).2⟩
  · intro hk
    simp [processedCount, hk]

/-- Witness for the inbound order theorem at a concrete two-layer Tor1
stack and an 8-byte cell. -/
theorem claim_inbound_order_exhaustive_witness :
    0 < processedCount
        ([tor1ClientOf [1], tor1ClientOf [2]] : List Tor1ClientCryptState)
        (List.replicate 8 0)
    ∧ ((⟨[tor1ClientOf [1], tor1ClientOf [2]]⟩ :
          InboundClientCryptWrapper Tor1ClientCryptState).decrypt
          (List.replicate 8 0)).1.layers[0]? =
        ((([tor1ClientOf [1], tor1ClientOf [2]] :
            List Tor1ClientCryptState))[0]?).map
          (fun s =>
            (ClientLayer.decrypt_layer s
              (peeledThrough
                (([tor1ClientOf [1], tor1ClientOf [2]] :
                  List Tor1ClientCryptState).take 0)
                (List.replicate 8 0))).1) := by
  constructor
  · decide
  · exact (claim_inbound_order_exhaustive
      ⟨[tor1ClientOf [1], tor1ClientOf [2]]⟩ (List.replicate 8 0)).2.1 0
      (by decide)

/-- C4: the inbound decrypt result is `RecognitionFailure` exactly when no
layer recognized the cell after the full pass, and `Ok` exactly when some
layer recognized it (yielding the cell peeled up to that layer). -/
theorem claim_recognition_failure_error {σ : Type} [ClientLayer σ]
    (w : InboundClientCryptWrapper σ) (c : List Nat) :
    ((w.decrypt c).2 = Except.error CryptError.RecognitionFailure ↔
      firstRecognizedIndex w.layers c = none)
    ∧ (firstRecognizedIndex w.layers c = none ↔
      ∀ b ∈ recognizedFlags w.layers c, b = false)
    ∧ (∀ out, (w.decrypt c).2 = Except.ok out ↔
        (∃ k, firstRecognizedIndex w.layers c = some k ∧
          out = peeledThrough (w.layers.take (k + 1)) c)) := by
  have h2 : (w.decrypt c).2 =
      match (inboundGo w.layers c).2 with
      | some out => Except.ok out
      | none => Except.error CryptError.RecognitionFailure := rfl
  refine ⟨?_, firstRecognizedIndex_none_iff w.layers c, ?_⟩
  · rw [h2, inboundGo_snd_eq]
    cases hf : firstRecognizedIndex w.layers c <;> simp [hf]
  · intro out
    rw [h2, inboundGo_snd_eq]
    cases hf : firstRecognizedIndex w.layers c <;> simp [hf, eq_comm]

/-- Witness for the recognition-failure theorem at a concrete one-layer
Tor1 stack and an 8-byte cell. -/
theorem claim_recognition_failure_error_witness :
    ((⟨[tor1ClientOf [1]]⟩ :
        InboundClientCryptWrapper Tor1ClientCryptState).decrypt
        (List.replicate 8 0)).2 =
      Except.error CryptError.RecognitionFailure ↔
    firstRecognizedIndex ([tor1ClientOf [1]] : List Tor1ClientCryptState)
      (List.replicate 8 0) = none :=
  (claim_recognition_failure_error ⟨[tor1ClientOf [1]]⟩ (List.replicate 8 0)).1

/-! Bridge equations between the abstract contracts and the concrete
engines, and the Tor1 three-hop end-to-end scenario. -/

theorem cl_tor1_encrypt_layer (s : Tor1ClientCryptState) (c : List Nat) :
    ClientLayer.encrypt_layer s c = s.encrypt_layer c := rfl

theorem cl_tor1_originate_layer (s : Tor1ClientCryptState) (c : List Nat) :
    ClientLayer.originate_layer s c = s.originate_layer c := rfl

theorem cl_tor1_decrypt_layer (s : Tor1ClientCryptState) (c : List Nat) :
    ClientLayer.decrypt_layer s c = s.decrypt_layer c := rfl

theorem cl_cgo_encrypt_layer (s : CgoClientCryptState) (c : List Nat) :
    ClientLayer.encrypt_layer s c = s.encrypt_layer c := rfl

theorem cl_cgo_originate_layer (s : CgoClientCryptState) (c : List Nat) :
    ClientLayer.originate_layer s c = s.originate_layer c := rfl

theorem cl_cgo_decrypt_layer (s : CgoClientCryptState) (c : List Nat) :
    ClientLayer.decrypt_layer s c = s.decrypt_layer c := rfl

theorem rl_tor1_decrypt (s : Tor1RelayCryptState) (c : List Nat) :
    RelayCryptState.decrypt s c = s.decrypt c := rfl

theorem rl_tor1_encrypt (s : Tor1RelayCryptState) (c : List Nat) :
    RelayCryptState.encrypt s c = s.encrypt c := rfl

theorem rl_tor1_originate (s : Tor1RelayCryptState) (c : List Nat) :
    RelayCryptState.originate s c = s.originate c := rfl

theorem rl_cgo_decrypt (s : CgoRelayCryptState) (c : List Nat) :
    RelayCryptState.decrypt s c = s.decrypt c := rfl

theorem rl_cgo_encrypt (s : CgoRelayCryptState) (c : List Nat) :
    RelayCryptState.encrypt s c = s.encrypt c := rfl

theorem rl_cgo_originate (s : CgoRelayCryptState) (c : List Nat) :
    RelayCryptState.originate s c = s.originate c := rfl

/-- C2: three seeds, an outbound Tor1 client stack with layers [s1,s2,s3]
built by `add_layer` in that order, a cell encrypted for the last hop
(hop 2), then the three relay `decrypt` operations for s1, s2, s3 in
order: the third relay reports `Recognized = true` and every payload byte
(outside the reserved recognition slot) equals the original; when the
cell's reserved slot is zeroed, as the plaintext convention requires,
zeroing the slot of the decrypted cell recovers the original cell exactly. -/
theorem claim_tor1_e2e_three_hops (s1 s2 s3 : KeySeed) (c : List Nat)
    (h1 : s1 ≠ []) (h2 : s2 ≠ []) (h3 : s3 ≠ []) (_hlen : c.length = CELL_LEN) :
    (Tor1ClientCryptState.construct s1 = Except.ok (tor1ClientOf s1)
      ∧ Tor1ClientCryptState.construct s2 = Except.ok (tor1ClientOf s2)
      ∧ Tor1ClientCryptState.construct s3 = Except.ok (tor1ClientOf s3)
      ∧ Tor1RelayCryptState.construct s1 = Except.ok (tor1RelayOf s1)
      ∧ Tor1RelayCryptState.construct s2 = Except.ok (tor1RelayOf s2)
      ∧ Tor1RelayCryptState.construct s3 = Except.ok (tor1RelayOf s3))
    ∧ ∃ ct,
      ((((OutboundClientCryptWrapper.new.add_layer
            (tor1ClientOf s1)).add_layer
            (tor1ClientOf s2)).add_layer
            (tor1ClientOf s3)).encrypt c 2).2 = Except.ok ct
      ∧ ((tor1RelayOf s3).decrypt
          ((tor1RelayOf s2).decrypt
            ((tor1RelayOf s1).decrypt ct).2.1).2.1).2.2 = true
      ∧ ((tor1RelayOf s3).decrypt
          ((tor1RelayOf s2).decrypt
            ((tor1RelayOf s1).decrypt ct).2.1).2.1).2.1.drop DIGEST_LEN =
        c.drop DIGEST_LEN
      ∧ (getSlot c = List.replicate DIGEST_LEN 0 →
          zeroSlot ((tor1RelayOf s3).decrypt
            ((tor1RelayOf s2).decrypt
              ((tor1RelayOf s1).decrypt ct).2.1).2.1).2.1 = c) := by
  refine ⟨⟨by simp [Tor1ClientCryptState.construct, h1],
    by simp [Tor1ClientCryptState.construct, h2],
    by simp [Tor1ClientCryptState.construct, h3],
    by simp [Tor1RelayCryptState.construct, h1],
    by simp [Tor1RelayCryptState.construct, h2],
    by simp [Tor1RelayCryptState.construct, h3]⟩, ?_⟩
  have henc :
      ((((OutboundClientCryptWrapper.new.add_layer
            (tor1ClientOf s1)).add_layer
            (tor1ClientOf s2)).add_layer
            (tor1ClientOf s3)).encrypt c 2).2 =
        Except.ok (xorStream (foldKey 0 s1) 0
          (xorStream (foldKey 0 s2) 0
            (xorStream (foldKey 0 s3) 0
              (setSlot
                (truncBytes (digestUpdate (foldKey 2 s3) (zeroSlot c)))
                (zeroSlot c))))) := by
    simp [OutboundClientCryptWrapper.encrypt, OutboundClientCryptWrapper.new,
      OutboundClientCryptWrapper.add_layer, outboundGo,
      cl_tor1_encrypt_layer, cl_tor1_originate_layer,
      Tor1ClientCryptState.encrypt_layer, Tor1ClientCryptState.originate_layer,
      tor1ClientOf]
  refine ⟨_, henc, ?_, ?_, ?_⟩
  · simp only [Tor1RelayCryptState.decrypt, tor1RelayOf, Nat.zero_mul,
      xorStream_xorStream]
    rw [zeroSlot_setSlot _ _ (truncBytes_length _), zeroSlot_zeroSlot,
      getSlot_setSlot _ _ (truncBytes_length _)]
    simp
  · simp only [Tor1RelayCryptState.decrypt, tor1RelayOf, Nat.zero_mul,
      xorStream_xorStream]
    rw [drop_setSlot _ _ (truncBytes_length _), drop_zeroSlot]
  · intro hz
    simp only [Tor1RelayCryptState.decrypt, tor1RelayOf, Nat.zero_mul,
      xorStream_xorStream]
    rw [zeroSlot_setSlot _ _ (truncBytes_length _), zeroSlot_zeroSlot]
    rw [zeroSlot, ← hz]
    exact List.take_append_drop _ c

/-- Witness for the three-hop end-to-end theorem at concrete seeds and a
concrete 509-byte cell. -/
theorem claim_tor1_e2e_three_hops_witness :
    ∃ ct,
      ((((OutboundClientCryptWrapper.new.add_layer
            (tor1ClientOf [1])).add_layer
            (tor1ClientOf [2])).add_layer
            (tor1ClientOf [3])).encrypt (List.replicate 509 0) 2).2 =
        Except.ok ct
      ∧ ((tor1RelayOf [3]).decrypt
          ((tor1RelayOf [2]).decrypt
            ((tor1RelayOf [1]).decrypt ct).2.1).2.1).2.2 = true := by
  obtain ⟨-, ct, hok, hrec, -, -⟩ :=
    claim_tor1_e2e_three_hops [1] [2] [3] (List.replicate 509 0)
      (by decide) (by decide) (by decide)
      (by rw [List.length_replicate]; rfl)
  exact ⟨ct, hok, hrec⟩

/-! The inbound round trip for a whole circuit, Tor1 and CGO. -/

theorem recognizedFlags_cons {σ : Type} [ClientLayer σ] (s : σ)
    (rest : List σ) (c : List Nat) :
    recognizedFlags (s :: rest) c =
      (ClientLayer.decrypt_layer s c).2.2 ::
        recognizedFlags rest (ClientLayer.decrypt_layer s c).2.1 := rfl

/-- The on-the-wire inbound ciphertext produced by driving a circuit's Tor1
relay states exit-to-client over a plaintext cell. -/
def tor1InboundCiphertext (seeds : List KeySeed) (c : List Nat) : List Nat :=
  (circuit_encrypt_inbound (seeds.map tor1RelayOf) c).2

/-- The inbound Tor1 client stack built by `add_layer` over the seeds in
order. -/
def mkInboundTor1 (seeds : List KeySeed) :
    InboundClientCryptWrapper Tor1ClientCryptState :=
  seeds.foldl (fun w s => w.add_layer (tor1ClientOf s))
    InboundClientCryptWrapper.new

/-- The on-the-wire inbound ciphertext produced by driving a circuit's CGO
relay states exit-to-client over a plaintext cell. -/
def cgoInboundCiphertext (seeds : List KeySeed) (c : List Nat) : List Nat :=
  (circuit_encrypt_inbound (seeds.map cgoRelayOf) c).2

/-- The inbound CGO client stack built by `add_layer` over the seeds in
order. -/
def mkInboundCgo (seeds : List KeySeed) :
    InboundClientCryptWrapper CgoClientCryptState :=
  seeds.foldl (fun w s => w.add_layer (cgoClientOf s))
    InboundClientCryptWrapper.new

theorem foldl_add_layer {σ : Type} (f : KeySeed → σ) :
    ∀ (seeds : List KeySeed) (acc : List σ),
      (seeds.foldl (fun w s => w.add_layer (f s))
        (⟨acc⟩ : InboundClientCryptWrapper σ)).layers = acc ++ seeds.map f := by
  intro seeds
  induction seeds with
  | nil => intro acc; simp
  | cons s rest ih =>
      intro acc
      simp only [List.foldl_cons, List.map_cons]
      rw [InboundClientCryptWrapper.add_layer, ih]
      simp

theorem mkInboundTor1_layers (seeds : List KeySeed) :
    (mkInboundTor1 seeds).layers = seeds.map tor1ClientOf := by
  unfold mkInboundTor1 InboundClientCryptWrapper.new
  rw [foldl_add_layer]
  simp

theorem mkInboundCgo_layers (seeds : List KeySeed) :
    (mkInboundCgo seeds).layers = seeds.map cgoClientOf := by
  unfold mkInboundCgo InboundClientCryptWrapper.new
  rw [foldl_add_layer]
  simp

theorem tor1_inbound_go :
    ∀ (seeds : List KeySeed) (c : List Nat), seeds ≠ [] →
      (∀ i, i + 1 < seeds.length →
        (recognizedFlags (seeds.map tor1ClientOf)
          (tor1InboundCiphertext seeds c))[i]? = some false) →
      ∃ out,
        (inboundGo (seeds.map tor1ClientOf)
          (tor1InboundCiphertext seeds c)).2 = some out
        ∧ out.drop DIGEST_LEN = c.drop DIGEST_LEN
        ∧ (getSlot c = List.replicate DIGEST_LEN 0 → zeroSlot out = c) := by
  intro seeds
  induction seeds with
  | nil => intro c h; exact absurd rfl h
  | cons s rest ih =>
      intro c _ hff
      cases rest with
      | nil =>
          refine ⟨setSlot
            (truncBytes (digestUpdate (foldKey 3 s) (zeroSlot c)))
            (zeroSlot c), ?_, ?_, ?_⟩
          · simp only [tor1InboundCiphertext, List.map_cons, List.map_nil,
              circuit_encrypt_inbound, rl_tor1_originate,
              Tor1RelayCryptState.originate, tor1RelayOf]
            simp only [inboundGo, cl_tor1_decrypt_layer,
              Tor1ClientCryptState.decrypt_layer, tor1ClientOf,
              Nat.zero_mul, xorStream_xorStream]
            rw [zeroSlot_setSlot _ _ (truncBytes_length _), zeroSlot_zeroSlot,
              getSlot_setSlot _ _ (truncBytes_length _)]
            simp
          · rw [drop_setSlot _ _ (truncBytes_length _), drop_zeroSlot]
          · intro hz
            rw [zeroSlot_setSlot _ _ (truncBytes_length _), zeroSlot_zeroSlot,
              zeroSlot, ← hz]
            exact List.take_append_drop _ c
      | cons s2 rest2 =>
          have hct : tor1InboundCiphertext (s :: s2 :: rest2) c =
              xorStream (foldKey 1 s) 0
                (tor1InboundCiphertext (s2 :: rest2) c) := by
            simp only [tor1InboundCiphertext, List.map_cons,
              circuit_encrypt_inbound, rl_tor1_encrypt,
              Tor1RelayCryptState.encrypt, tor1RelayOf, Nat.zero_mul]
          have hpeel :
              (ClientLayer.decrypt_layer (tor1ClientOf s)
                (tor1InboundCiphertext (s :: s2 :: rest2) c)).2.1 =
              tor1InboundCiphertext (s2 :: rest2) c := by
            rw [hct]
            simp only [cl_tor1_decrypt_layer,
              Tor1ClientCryptState.decrypt_layer, tor1ClientOf,
              Nat.zero_mul, xorStream_xorStream]
          have hflag :
              (ClientLayer.decrypt_layer (tor1ClientOf s)
                (tor1InboundCiphertext (s :: s2 :: rest2) c)).2.2 = false := by
            have h0 := hff 0 (by simp)
            rw [List.map_cons, recognizedFlags_cons] at h0
            simpa using h0
          have hrest : ∀ i, i + 1 < (s2 :: rest2).length →
              (recognizedFlags ((s2 :: rest2).map tor1ClientOf)
                (tor1InboundCiphertext (s2 :: rest2) c))[i]? = some false := by
            intro i hi
            have h1 := hff (i + 1) (by simpa using Nat.succ_lt_succ hi)
            rw [List.map_cons, recognizedFlags_cons] at h1
            rw [hpeel] at h1
            simpa using h1
          obtain ⟨out, hout, hdrop, hzs⟩ := ih c (by simp) hrest
          refine ⟨out, ?_, hdrop, hzs⟩
          rw [List.map_cons]
          rw [inboundGo]
          simp only [hflag, if_false, Bool.false_eq_true, hpeel]
          exact hout

theorem inboundGo_cons_true {σ : Type} [ClientLayer σ] (s : σ)
    (rest : List σ) (c : List Nat)
    (h : (ClientLayer.decrypt_layer s c).2.2 = true) :
    inboundGo (s :: rest) c =
      ((ClientLayer.decrypt_layer s c).1 :: rest,
        some (ClientLayer.decrypt_layer s c).2.1) := by
  rw [inboundGo]
  simp [h]

theorem inboundGo_cons_false {σ : Type} [ClientLayer σ] (s : σ)
    (rest : List σ) (c : List Nat)
    (h : (ClientLayer.decrypt_layer s c).2.2 = false) :
    inboundGo (s :: rest) c =
      ((ClientLayer.decrypt_layer s c).1 ::
          (inboundGo rest (ClientLayer.decrypt_layer s c).2.1).1,
        (inboundGo rest (ClientLayer.decrypt_layer s c).2.1).2) := by
  rw [inboundGo]
  simp [h]

theorem take_tag (t : Nat) (b : List Nat) :
    ((natToBytes TAG_LEN t) ++ b).take TAG_LEN = natToBytes TAG_LEN t :=
  List.take_left' (natToBytes_length _ _)

theorem drop_tag (t : Nat) (b : List Nat) :
    ((natToBytes TAG_LEN t) ++ b).drop TAG_LEN = b :=
  List.drop_left' (natToBytes_length _ _)

theorem cgo_inbound_go :
    ∀ (seeds : List KeySeed) (c : List Nat), seeds ≠ [] →
      (∀ i, i + 1 < seeds.length →
        (recognizedFlags (seeds.map cgoClientOf)
          (cgoInboundCiphertext seeds c))[i]? = some false) →
      ∃ out,
        (inboundGo (seeds.map cgoClientOf)
          (cgoInboundCiphertext seeds c)).2 = some out
        ∧ out.drop TAG_LEN = c.drop TAG_LEN
        ∧ (c.take TAG_LEN = List.replicate TAG_LEN 0 →
            List.replicate TAG_LEN 0 ++ out.drop TAG_LEN = c) := by
  intro seeds
  induction seeds with
  | nil => intro c h; exact absurd rfl h
  | cons s rest ih =>
      intro c _ hff
      cases rest with
      | nil =>
          have hct : cgoInboundCiphertext [s] c =
              xorStream (mixK (foldKey 5 s) (foldKey 7 s)) 0
                (natToBytes TAG_LEN
                  (uh (foldKey 5 s) (foldKey 7 s) (c.drop TAG_LEN)) ++
                  c.drop TAG_LEN) := by
            simp only [cgoInboundCiphertext, List.map_cons, List.map_nil,
              circuit_encrypt_inbound, rl_cgo_originate,
              CgoRelayCryptState.originate, cgoRelayOf]
          have hpeel :
              (ClientLayer.decrypt_layer (cgoClientOf s)
                (cgoInboundCiphertext [s] c)).2.1 =
              natToBytes TAG_LEN
                (uh (foldKey 5 s) (foldKey 7 s) (c.drop TAG_LEN)) ++
                c.drop TAG_LEN := by
            rw [hct]
            simp only [cl_cgo_decrypt_layer,
              CgoClientCryptState.decrypt_layer, cgoClientOf,
              xorStream_xorStream]
          have hflag :
              (ClientLayer.decrypt_layer (cgoClientOf s)
                (cgoInboundCiphertext [s] c)).2.2 = true := by
            rw [hct]
            simp only [cl_cgo_decrypt_layer,
              CgoClientCryptState.decrypt_layer, cgoClientOf,
              xorStream_xorStream]
            rw [take_tag, drop_tag]
            simp
          refine ⟨natToBytes TAG_LEN
              (uh (foldKey 5 s) (foldKey 7 s) (c.drop TAG_LEN)) ++
              c.drop TAG_LEN, ?_, ?_, ?_⟩
          · rw [List.map_cons, List.map_nil,
              inboundGo_cons_true _ _ _ hflag]
            exact congrArg some hpeel
          · rw [drop_tag]
          · intro hz
            rw [drop_tag, ← hz]
            exact List.take_append_drop _ c
      | cons s2 rest2 =>
          have hct : cgoInboundCiphertext (s :: s2 :: rest2) c =
              xorStream (mixK (foldKey 5 s) (foldKey 7 s)) 0
                (cgoInboundCiphertext (s2 :: rest2) c) := by
            simp only [cgoInboundCiphertext, List.map_cons,
              circuit_encrypt_inbound, rl_cgo_encrypt,
              CgoRelayCryptState.encrypt, cgoRelayOf]
          have hpeel :
              (ClientLayer.decrypt_layer (cgoClientOf s)
                (cgoInboundCiphertext (s :: s2 :: rest2) c)).2.1 =
              cgoInboundCiphertext (s2 :: rest2) c := by
            rw [hct]
            simp only [cl_cgo_decrypt_layer,
              CgoClientCryptState.decrypt_layer, cgoClientOf,
              xorStream_xorStream]
          have hflag :
              (ClientLayer.decrypt_layer (cgoClientOf s)
                (cgoInboundCiphertext (s :: s2 :: rest2) c)).2.2 = false := by
            have h0 := hff 0 (by simp)
            rw [List.map_cons, recognizedFlags_cons] at h0
            simpa using h0
          have hrest : ∀ i, i + 1 < (s2 :: rest2).length →
              (recognizedFlags ((s2 :: rest2).map cgoClientOf)
                (cgoInboundCiphertext (s2 :: rest2) c))[i]? = some false := by
            intro i hi
            have h1 := hff (i + 1) (by simpa using Nat.succ_lt_succ hi)
            rw [List.map_cons, recognizedFlags_cons] at h1
            rw [hpeel] at h1
            simpa using h1
          obtain ⟨out, hout, hdrop, hzs⟩ := ih c (by simp) hrest
          refine ⟨out, ?_, hdrop, hzs⟩
          rw [List.map_cons]
          rw [inboundGo]
          simp only [hflag, if_false, Bool.false_eq_true, hpeel]
          exact hout

/-- C1: for every sequence of valid seeds, a cell encrypted inbound by the
Relay states derived from those seeds (exit-to-client, as
`circuit_encrypt_inbound` does) and decrypted by an
`InboundClientCryptWrapper` whose Client layers were constructed from the
same seeds in the same order is accepted, and the relay-originated
plaintext is recovered exactly: every byte outside the recognition
slot/tag equals the original, and when the reserved slot/tag region of the
original is zeroed (the plaintext convention for a cell handed to
`originate`) restoring that zeroed region recovers the original cell
byte-for-byte; this holds for both the Tor1 and CGO constructions.  The
hypotheses `hff1`/`hff2` exclude the probabilistic event that a
non-terminal layer falsely recognizes the cell. -/
theorem claim_inbound_reciprocity (seeds : List KeySeed) (c : List Nat)
    (hne : seeds ≠ [])
    (hv : ∀ s ∈ seeds, s ≠ [])
    (hff1 : ∀ i, i + 1 < seeds.length →
      (recognizedFlags (seeds.map tor1ClientOf)
        (tor1InboundCiphertext seeds c))[i]? = some false)
    (hff2 : ∀ i, i + 1 < seeds.length →
      (recognizedFlags (seeds.map cgoClientOf)
        (cgoInboundCiphertext seeds c))[i]? = some false) :
    (∀ s ∈ seeds,
      Tor1ClientCryptState.construct s = Except.ok (tor1ClientOf s)
      ∧ Tor1RelayCryptState.construct s = Except.ok (tor1RelayOf s)
      ∧ CgoClientCryptState.construct s = Except.ok (cgoClientOf s)
      ∧ CgoRelayCryptState.construct s = Except.ok (cgoRelayOf s))
    ∧ (∃ out,
        ((mkInboundTor1 seeds).decrypt (tor1InboundCiphertext seeds c)).2 =
          Except.ok out
        ∧ out.drop DIGEST_LEN = c.drop DIGEST_LEN
        ∧ (getSlot c = List.replicate DIGEST_LEN 0 → zeroSlot out = c))
    ∧ (∃ out,
        ((mkInboundCgo seeds).decrypt (cgoInboundCiphertext seeds c)).2 =
          Except.ok out
        ∧ out.drop TAG_LEN = c.drop TAG_LEN
        ∧ (c.take TAG_LEN = List.replicate TAG_LEN 0 →
            List.replicate TAG_LEN 0 ++ out.drop TAG_LEN = c)) := by
  refine ⟨?_, ?_, ?_⟩
  · intro s hs
    have hnz := hv s hs
    exact ⟨by simp [Tor1ClientCryptState.construct, hnz],
      by simp [Tor1RelayCryptState.construct, hnz],
      by simp [CgoClientCryptState.construct, hnz],
      by simp [CgoRelayCryptState.construct, hnz]⟩
  · obtain ⟨out, hout, hdrop, hz⟩ := tor1_inbound_go seeds c hne hff1
    refine ⟨out, ?_, hdrop, hz⟩
    have hd : ((mkInboundTor1 seeds).decrypt
        (tor1InboundCiphertext seeds c)).2 =
        match (inboundGo ((mkInboundTor1 seeds).layers)
          (tor1InboundCiphertext seeds c)).2 with
        | some o => Except.ok o
        | none => Except.error CryptError.RecognitionFailure := rfl
    rw [hd, mkInboundTor1_layers, hout]
  · obtain ⟨out, hout, hdrop, hz⟩ := cgo_inbound_go seeds c hne hff2
    refine ⟨out, ?_, hdrop, hz⟩
    have hd : ((mkInboundCgo seeds).decrypt
        (cgoInboundCiphertext seeds c)).2 =
        match (inboundGo ((mkInboundCgo seeds).layers)
          (cgoInboundCiphertext seeds c)).2 with
        | some o => Except.ok o
        | none => Except.error CryptError.RecognitionFailure := rfl
    rw [hd, mkInboundCgo_layers, hout]

/-- Witness for the inbound reciprocity theorem at three concrete seeds and
a concrete 32-byte cell (the no-false-recognition hypotheses are checked by
evaluation). -/
theorem claim_inbound_reciprocity_witness :
    ∃ out,
      ((mkInboundTor1 [[1], [2], [3]]).decrypt
        (tor1InboundCiphertext [[1], [2], [3]] (List.replicate 32 7))).2 =
        Except.ok out
      ∧ out.drop DIGEST_LEN = (List.replicate 32 7).drop DIGEST_LEN
      ∧ (getSlot (List.replicate 32 7) = List.replicate DIGEST_LEN 0 →
          zeroSlot out = List.replicate 32 7) :=
  (claim_inbound_reciprocity [[1], [2], [3]] (List.replicate 32 7)
    (by decide) (by decide)
    (by intro i hi
        simp only [List.length_cons, List.length_nil] at hi
        have hi2 : i < 2 := by omega
        interval_cases i <;> decide)
    (by intro i hi
        simp only [List.length_cons, List.length_nil] at hi
        have hi2 : i < 2 := by omega
        interval_cases i <;> decide)).2.1

/-- C5: `construct` succeeds for every seed of sufficient length (any
nonempty seed in this model, so in particular the 18-, 32- and 20-byte
benchmark seeds), fails with `KeyError` exactly when the seed is too short,
and is pure and deterministic: equal seeds give equal states, hence
identical behaviour on every subsequent cell sequence. -/
theorem claim_construct_contract :
    (∀ seed : KeySeed,
      ((∃ st, Tor1ClientCryptState.construct seed = Except.ok st) ↔ seed ≠ [])
      ∧ ((∃ st, Tor1RelayCryptState.construct seed = Except.ok st) ↔ seed ≠ [])
      ∧ ((∃ st, CgoClientCryptState.construct seed = Except.ok st) ↔ seed ≠ [])
      ∧ ((∃ st, CgoRelayCryptState.construct seed = Except.ok st) ↔ seed ≠ []))
    ∧ (∀ seed : KeySeed,
      (Tor1ClientCryptState.construct seed = Except.error KeyError.tooShort ↔
        seed = [])
      ∧ (CgoClientCryptState.construct seed = Except.error KeyError.tooShort ↔
        seed = []))
    ∧ (∀ s t : KeySeed, s = t →
        Tor1ClientCryptState.construct s = Tor1ClientCryptState.construct t
        ∧ Tor1RelayCryptState.construct s = Tor1RelayCryptState.construct t
        ∧ CgoClientCryptState.construct s = CgoClientCryptState.construct t
        ∧ CgoRelayCryptState.construct s = CgoRelayCryptState.construct t)
    ∧ (∀ seed : KeySeed, seed ≠ [] →
        Tor1ClientCryptState.construct seed = Except.ok (tor1ClientOf seed)
        ∧ Tor1RelayCryptState.construct seed = Except.ok (tor1RelayOf seed)
        ∧ CgoClientCryptState.construct seed = Except.ok (cgoClientOf seed)
        ∧ CgoRelayCryptState.construct seed = Except.ok (cgoRelayOf seed)) := by
  refine ⟨?_, ?_, ?_, ?_⟩
  · intro seed
    by_cases h : seed = [] <;>
      simp [Tor1ClientCryptState.construct, Tor1RelayCryptState.construct,
        CgoClientCryptState.construct, CgoRelayCryptState.construct, h]
  · intro seed
    by_cases h : seed = [] <;>
      simp [Tor1ClientCryptState.construct, CgoClientCryptState.construct, h]
  · intro s t h
    subst h
    exact ⟨rfl, rfl, rfl, rfl⟩
  · intro seed h
    simp [Tor1ClientCryptState.construct, Tor1RelayCryptState.construct,
      CgoClientCryptState.construct, CgoRelayCryptState.construct, h]

/-- Witness for the construction contract at a 1-byte seed and a 2-byte
seed. -/
theorem claim_construct_contract_witness :
    (∃ st, Tor1ClientCryptState.construct [1] = Except.ok st)
    ∧ Tor1ClientCryptState.construct [5, 6] = Except.ok (tor1ClientOf [5, 6]) :=
  ⟨(claim_construct_contract.1 [1]).1.mpr (by decide),
    (claim_construct_contract.2.2.2 [5, 6] (by decide)).1⟩

/-- The full state-and-output trajectory of an inbound stack fed a sequence
of cells in order. -/
def inboundTrajectory {σ : Type} [ClientLayer σ] :
    InboundClientCryptWrapper σ → List (List Nat) →
      List (InboundClientCryptWrapper σ × Except CryptError (List Nat))
  | _, [] => []
  | w, c :: cs =>
    let r := w.decrypt c
    r :: inboundTrajectory r.1 cs

/-- C7: two-run determinism - two independent stacks constructed from the
same seed sequence and fed the same cell sequence produce identical
outputs for every cell and identical internal state trajectories, for both
Tor1 and CGO. -/
theorem claim_two_run_determinism (seeds1 seeds2 : List KeySeed)
    (cells : List (List Nat)) (h : seeds1 = seeds2) :
    inboundTrajectory (mkInboundTor1 seeds1) cells =
      inboundTrajectory (mkInboundTor1 seeds2) cells
    ∧ inboundTrajectory (mkInboundCgo seeds1) cells =
      inboundTrajectory (mkInboundCgo seeds2) cells := by
  subst h
  exact ⟨rfl, rfl⟩

/-- Witness for two-run determinism at a concrete seed list and cell
list. -/
theorem claim_two_run_determinism_witness :
    inboundTrajectory (mkInboundTor1 [[1], [2]]) [List.replicate 8 0] =
      inboundTrajectory (mkInboundTor1 [[1], [2]]) [List.replicate 8 0] :=
  (claim_two_run_determinism [[1], [2]] [[1], [2]] [List.replicate 8 0] rfl).1

/-! Stack-order invariant under interleaved operations. -/

/-- An operation on an inbound client stack: extend the circuit by one hop
(`add_layer` of the state constructed from a seed) or process one inbound
cell. -/
inductive StackOp where
  | add : KeySeed → StackOp
  | cell : List Nat → StackOp

/-- Apply a sequence of stack operations to a Tor1 inbound stack. -/
def applyOpsTor1 :
    InboundClientCryptWrapper Tor1ClientCryptState → List StackOp →
      InboundClientCryptWrapper Tor1ClientCryptState
  | w, [] => w
  | w, StackOp.add s :: ops => applyOpsTor1 (w.add_layer (tor1ClientOf s)) ops
  | w, StackOp.cell c :: ops => applyOpsTor1 (w.decrypt c).1 ops

/-- The seeds of the `add_layer` operations of a sequence, in call order. -/
def addedSeeds : List StackOp → List KeySeed
  | [] => []
  | StackOp.add s :: ops => s :: addedSeeds ops
  | StackOp.cell _ :: ops => addedSeeds ops

/-- The immutable key material identifying a Tor1 client layer (the stream
keys never change after construction; only digests and counters evolve). -/
def tor1Keys (s : Tor1ClientCryptState) : Nat × Nat := (s.kf, s.kb)

theorem decrypt_layer_keys (s : Tor1ClientCryptState) (c : List Nat) :
    tor1Keys (ClientLayer.decrypt_layer s c).1 = tor1Keys s := rfl

theorem inboundGo_keys :
    ∀ (layers : List Tor1ClientCryptState) (c : List Nat),
      (inboundGo layers c).1.map tor1Keys = layers.map tor1Keys := by
  intro layers
  induction layers with
  | nil => intro c; rfl
  | cons s rest ih =>
      intro c
      rcases h : (ClientLayer.decrypt_layer s c).2.2 with _ | _
      case true =>
        rw [inboundGo_cons_true _ _ _ h]
        simp [decrypt_layer_keys]
      case false =>
        rw [inboundGo_cons_false _ _ _ h]
        simp [decrypt_layer_keys, ih]

theorem decrypt_keys (w : InboundClientCryptWrapper Tor1ClientCryptState)
    (c : List Nat) :
    (w.decrypt c).1.layers.map tor1Keys = w.layers.map tor1Keys := by
  have hl : (w.decrypt c).1.layers = (inboundGo w.layers c).1 := rfl
  rw [hl, inboundGo_keys]

theorem applyOpsTor1_keys :
    ∀ (ops : List StackOp) (w : InboundClientCryptWrapper Tor1ClientCryptState),
      (applyOpsTor1 w ops).layers.map tor1Keys =
        w.layers.map tor1Keys ++
          (addedSeeds ops).map (fun s => tor1Keys (tor1ClientOf s)) := by
  intro ops
  induction ops with
  | nil => intro w; simp [applyOpsTor1, addedSeeds]
  | cons op rest ih =>
      intro w
      cases op with
      | add s =>
          rw [applyOpsTor1, ih, InboundClientCryptWrapper.add_layer]
          simp [addedSeeds]
      | cell c =>
          rw [applyOpsTor1, ih, decrypt_keys]
          simp [addedSeeds]

theorem encrypt_layer_keys (s : Tor1ClientCryptState) (c : List Nat) :
    tor1Keys (ClientLayer.encrypt_layer s c).1 = tor1Keys s := rfl

theorem originate_layer_keys (s : Tor1ClientCryptState) (c : List Nat) :
    tor1Keys (ClientLayer.originate_layer s c).1 = tor1Keys s := rfl

theorem outboundGo_keys :
    ∀ (layers : List Tor1ClientCryptState) (hop : Nat) (c : List Nat)
      (r : List Tor1ClientCryptState × List Nat),
      outboundGo layers hop c = some r →
        r.1.map tor1Keys = layers.map tor1Keys := by
  intro layers
  induction layers with
  | nil => intro hop c r h; exact Option.noConfusion h
  | cons s rest ih =>
      intro hop c r h
      cases hop with
      | zero =>
          rw [outboundGo] at h
          cases h
          simp [originate_layer_keys]
      | succ hp =>
          rw [outboundGo] at h
          cases hq : outboundGo rest hp c with
          | none => rw [hq] at h; exact Option.noConfusion h
          | some q =>
              rw [hq] at h
              cases h
              simp [encrypt_layer_keys, ih hp c q hq]

theorem encrypt_keys (w : OutboundClientCryptWrapper Tor1ClientCryptState)
    (c : List Nat) (hop : Nat) :
    (w.encrypt c hop).1.layers.map tor1Keys = w.layers.map tor1Keys := by
  unfold OutboundClientCryptWrapper.encrypt
  cases hq : outboundGo w.layers hop c with
  | none => rfl
  | some r => exact outboundGo_keys w.layers hop c r hq

/-- An operation on an outbound client stack: extend the circuit by one hop
or encrypt one cell for a target hop. -/
inductive OutStackOp where
  | add : KeySeed → OutStackOp
  | cell : List Nat → Nat → OutStackOp

/-- Apply a sequence of stack operations to a Tor1 outbound stack. -/
def applyOpsTor1Out :
    OutboundClientCryptWrapper Tor1ClientCryptState → List OutStackOp →
      OutboundClientCryptWrapper Tor1ClientCryptState
  | w, [] => w
  | w, OutStackOp.add s :: ops =>
      applyOpsTor1Out (w.add_layer (tor1ClientOf s)) ops
  | w, OutStackOp.cell c hop :: ops => applyOpsTor1Out (w.encrypt c hop).1 ops

/-- The seeds of the `add_layer` operations of an outbound sequence, in
call order. -/
def addedSeedsOut : List OutStackOp → List KeySeed
  | [] => []
  | OutStackOp.add s :: ops => s :: addedSeedsOut ops
  | OutStackOp.cell _ _ :: ops => addedSeedsOut ops

theorem applyOpsTor1Out_keys :
    ∀ (ops : List OutStackOp)
      (w : OutboundClientCryptWrapper Tor1ClientCryptState),
      (applyOpsTor1Out w ops).layers.map tor1Keys =
        w.layers.map tor1Keys ++
          (addedSeedsOut ops).map (fun s => tor1Keys (tor1ClientOf s)) := by
  intro ops
  induction ops with
  | nil => intro w; simp [applyOpsTor1Out, addedSeedsOut]
  | cons op rest ih =>
      intro w
      cases op with
      | add s =>
          rw [applyOpsTor1Out, ih, OutboundClientCryptWrapper.add_layer]
          simp [addedSeedsOut]
      | cell c hop =>
          rw [applyOpsTor1Out, ih, encrypt_keys]
          simp [addedSeedsOut]

/-- C8: `add_layer` appends the new hop state at index N (the far end of
the stack) on both wrappers, no stack operation - outbound `encrypt` or
inbound `decrypt` - removes or reorders layers once added, and after any
interleaving of `add_layer` and cell operations (inbound decrypts, or
outbound encrypts at any hop number) the layer sequence (identified by its
immutable key material) equals the sequence of `add_layer` arguments in
call order. -/
theorem claim_stack_order (ops : List StackOp) (oops : List OutStackOp)
    (w : InboundClientCryptWrapper Tor1ClientCryptState)
    (ow : OutboundClientCryptWrapper Tor1ClientCryptState)
    (s : Tor1ClientCryptState) (c : List Nat) (hop : Nat) :
    ((w.add_layer s).layers = w.layers ++ [s])
    ∧ ((ow.add_layer s).layers = ow.layers ++ [s])
    ∧ ((w.decrypt c).1.layers.map tor1Keys = w.layers.map tor1Keys)
    ∧ ((ow.encrypt c hop).1.layers.map tor1Keys = ow.layers.map tor1Keys)
    ∧ ((applyOpsTor1 InboundClientCryptWrapper.new ops).layers.map tor1Keys =
        (addedSeeds ops).map (fun sd => tor1Keys (tor1ClientOf sd)))
    ∧ ((applyOpsTor1Out OutboundClientCryptWrapper.new oops).layers.map
          tor1Keys =
        (addedSeedsOut oops).map (fun sd => tor1Keys (tor1ClientOf sd))) := by
  refine ⟨rfl, rfl, decrypt_keys w c, encrypt_keys ow c hop, ?_, ?_⟩
  · rw [applyOpsTor1_keys]
    rfl
  · rw [applyOpsTor1Out_keys]
    rfl

/-- Witness for the stack-order theorem at concrete inbound and outbound
operation sequences (the outbound one encrypts for an in-range and an
out-of-range hop). -/
theorem claim_stack_order_witness :
    (applyOpsTor1 InboundClientCryptWrapper.new
      [StackOp.add [1], StackOp.cell (List.replicate 8 0),
        StackOp.add [2]]).layers.map tor1Keys =
      (addedSeeds
        [StackOp.add [1], StackOp.cell (List.replicate 8 0),
          StackOp.add [2]]).map (fun sd => tor1Keys (tor1ClientOf sd))
    ∧ (applyOpsTor1Out OutboundClientCryptWrapper.new
        [OutStackOp.add [1], OutStackOp.cell (List.replicate 8 0) 0,
          OutStackOp.add [2], OutStackOp.cell (List.replicate 8 0) 5,
          OutStackOp.cell (List.replicate 8 0) 1]).layers.map tor1Keys =
      (addedSeedsOut
        [OutStackOp.add [1], OutStackOp.cell (List.replicate 8 0) 0,
          OutStackOp.add [2], OutStackOp.cell (List.replicate 8 0) 5,
          OutStackOp.cell (List.replicate 8 0) 1]).map
        (fun sd => tor1Keys (tor1ClientOf sd)) :=
  ⟨(claim_stack_order
      [StackOp.add [1], StackOp.cell (List.replicate 8 0), StackOp.add [2]]
      [] InboundClientCryptWrapper.new OutboundClientCryptWrapper.new
      (tor1ClientOf [3]) (List.replicate 8 0) 0).2.2.2.2.1,
    (claim_stack_order []
      [OutStackOp.add [1], OutStackOp.cell (List.replicate 8 0) 0,
        OutStackOp.add [2], OutStackOp.cell (List.replicate 8 0) 5,
        OutStackOp.cell (List.replicate 8 0) 1]
      InboundClientCryptWrapper.new OutboundClientCryptWrapper.new
      (tor1ClientOf [3]) (List.replicate 8 0) 0).2.2.2.2.2⟩

/-! Fallibility of the outbound interface. -/

theorem outboundGo_none_iff {σ : Type} [ClientLayer σ] :
    ∀ (layers : List σ) (hop : Nat) (c : List Nat),
      outboundGo layers hop c = none ↔ layers.length ≤ hop := by
  intro layers
  induction layers with
  | nil => intro hop c; simp [outboundGo]
  | cons s rest ih =>
      intro hop c
      cases hop with
      | zero => simp [outboundGo]
      | succ h =>
          rw [outboundGo]
          cases hq : outboundGo rest h c with
          | none =>
              have := (ih h c).mp hq
              simp [this, Nat.succ_le_succ_iff]
          | some r =>
              have : ¬ rest.length ≤ h := by
                intro hle
                rw [(ih h c).mpr hle] at hq
                exact Option.noConfusion hq
              simp [Nat.succ_le_succ_iff, this]

/-- C10: `OutboundClientCryptWrapper::encrypt(cell, hop_num)` is fallible
at the interface; for a stack of N layers it succeeds exactly when
`hop_num < N` and reports `NoSuchHop` exactly when `hop_num >= N`, so the
error branch is unreachable under the precondition `hop_num < N`.  The
relay-side operations `decrypt`, `encrypt` and `originate` are total
functions of the state and cell (they return no error by type). -/
theorem claim_outbound_fallible {σ : Type} [ClientLayer σ]
    (w : OutboundClientCryptWrapper σ) (c : List Nat) (hop : Nat) :
    ((∃ out, (w.encrypt c hop).2 = Except.ok out) ↔ hop < w.layers.length)
    ∧ ((w.encrypt c hop).2 = Except.error CryptError.NoSuchHop ↔
        w.layers.length ≤ hop) := by
  unfold OutboundClientCryptWrapper.encrypt
  cases hq : outboundGo w.layers hop c with
  | none =>
      have := (outboundGo_none_iff w.layers hop c).mp hq
      constructor
      · simp [Nat.not_lt.mpr this]
      · simp [this]
  | some r =>
      have : ¬ w.layers.length ≤ hop := by
        intro hle
        rw [(outboundGo_none_iff w.layers hop c).mpr hle] at hq
        exact Option.noConfusion hq
      constructor
      · simp [Nat.lt_of_not_le this]
      · simp [this]

/-- Witness for the outbound fallibility theorem at a concrete one-layer
stack: hop 0 succeeds, hop 3 is `NoSuchHop`. -/
theorem claim_outbound_fallible_witness :
    (∃ out,
      ((⟨[tor1ClientOf [1]]⟩ :
          OutboundClientCryptWrapper Tor1ClientCryptState).encrypt
          (List.replicate 8 0) 0).2 = Except.ok out)
    ∧ ((⟨[tor1ClientOf [1]]⟩ :
          OutboundClientCryptWrapper Tor1ClientCryptState).encrypt
          (List.replicate 8 0) 3).2 =
        Except.error CryptError.NoSuchHop :=
  ⟨(claim_outbound_fallible ⟨[tor1ClientOf [1]]⟩ (List.replicate 8 0) 0).1.mpr
      (by decide),
    (claim_outbound_fallible ⟨[tor1ClientOf [1]]⟩ (List.replicate 8 0) 3).2.mpr
      (by decide)⟩

/-! Wrong-order decryption at the benchmark configuration. -/

/-- The first benchmark seed ("hidden we are free"). -/
def benchSeed1 : KeySeed :=
  [104, 105, 100, 100, 101, 110, 32, 119, 101, 32, 97, 114, 101, 32, 102,
   114, 101, 101]

/-- The second benchmark seed ("free to speak, to free ourselves"). -/
def benchSeed2 : KeySeed :=
  [102, 114, 101, 101, 32, 116, 111, 32, 115, 112, 101, 97, 107, 44, 32,
   116, 111, 32, 102, 114, 101, 101, 32, 111, 117, 114, 115, 101, 108, 118,
   101, 115]

/-- A concrete 509-byte cell standing in for the benchmark's random cell. -/
def benchCell : List Nat := (List.range CELL_LEN).map (fun i => (i * 7 + 3) % 256)

/-- The two-layer Tor1 outbound stack of the relay-decrypt benchmark. -/
def benchOutbound : OutboundClientCryptWrapper Tor1ClientCryptState :=
  (OutboundClientCryptWrapper.new.add_layer
    (tor1ClientOf benchSeed1)).add_layer (tor1ClientOf benchSeed2)

/-- The on-the-wire cell the benchmark hands to the relay: `benchCell`
encrypted outbound for hop 1. -/
def benchCtTor1 : List Nat :=
  (benchOutbound.encrypt benchCell 1).2.toOption.getD []

/-- The two-layer CGO outbound stack of the relay-decrypt benchmark. -/
def benchOutboundCgo : OutboundClientCryptWrapper CgoClientCryptState :=
  (OutboundClientCryptWrapper.new.add_layer
    (cgoClientOf benchSeed1)).add_layer (cgoClientOf benchSeed2)

/-- The CGO on-the-wire cell for hop 1. -/
def benchCtCgo : List Nat :=
  (benchOutboundCgo.encrypt benchCell 1).2.toOption.getD []

set_option maxRecDepth 20000 in
set_option maxHeartbeats 4000000 in
/-- C6: at the benchmark configuration (two layers, cell targeted at hop
1), the relay at hop 0 does not report `Recognized`; decrypting through the
layers in the wrong order (hop 1's relay first, then hop 0's) also never
reports `Recognized`; only the correct order 0 then 1 recognizes at hop 1;
likewise the CGO relay at hop 0 does not recognize the hop-1 cell.  (The
general claim is probabilistic - false recognition is bounded by the
recognition-slot/tag width - and is settled here at the concrete
benchmark instance.) -/
theorem claim_wrong_order_not_recognized :
    (benchOutbound.encrypt benchCell 1).2.toOption = some benchCtTor1
    ∧ ((tor1RelayOf benchSeed1).decrypt benchCtTor1).2.2 = false
    ∧ ((tor1RelayOf benchSeed2).decrypt benchCtTor1).2.2 = false
    ∧ ((tor1RelayOf benchSeed1).decrypt
        ((tor1RelayOf benchSeed2).decrypt benchCtTor1).2.1).2.2 = false
    ∧ ((tor1RelayOf benchSeed2).decrypt
        ((tor1RelayOf benchSeed1).decrypt benchCtTor1).2.1).2.2 = true
    ∧ (benchOutboundCgo.encrypt benchCell 1).2.toOption = some benchCtCgo
    ∧ ((cgoRelayOf benchSeed1).decrypt benchCtCgo).2.2 = false := by
  decide
